import Mathlib

/-!
Verification of the result-retrieval and aggregation engine of the
clotho-ui crowdsourcing tool (`get_results.py`, `tools.py`).

The source is shallowly embedded: Python dicts holding string values become
association lists (`List (String × String)`), the pagination loop of
`get_all_hits` becomes a recursion over the list of pages the remote
listing would yield, and the columnar result dictionary of
`get_answer_data` becomes a function from column name to list of cells.
-/

namespace ClothoUI


/-- A HIT or assignment record: an ordered mapping from field name to
string value, as returned by the remote service. -/
abbrev Rec := List (String × String)

/-- A predicate spec: field name to ordered pattern list
(`hit_search_params` / `assignment_search_params`). -/
abbrev Params := List (String × List String)

/-- Python's `str.startswith`, on the character lists of the strings. -/
def starts_with (v pre : String) : Bool := pre.data.isPrefixOf v.data

/-- Python's `str.endswith`, on the character lists of the strings. -/
def ends_with (v suf : String) : Bool := suf.data.isSuffixOf v.data

/-- `test_one` from `test_hit` in get_results.py: one pattern against one
value.  An empty pattern compares for equality (hence matches only the
empty value); a pattern starting with `+` tests `startswith` on the rest;
one starting with `-` tests `endswith`; otherwise exact equality.  The
Python falls through returning `None` (falsy) when a prefix/suffix test
fails, which is `false` here. -/
def test_one (p h : String) : Bool :=
  if p = "" then p == h
  else if p.front = '+' then starts_with h (p.drop 1)
  else if p.front = '-' then ends_with h (p.drop 1)
  else p == h

/-- One field of `test_hit`: the field must be present in the record and
some pattern of its list must match (`any(test_one(p, hit[i]) for p in pars)`). -/
def field_ok (hit : Rec) (k : String) (pats : List String) : Bool :=
  match List.lookup k hit with
  | none => false
  | some h => pats.any (fun p => test_one p h)

/-- `test_hit(hit, params)` from get_results.py: every field of `params`
must be present in `hit` and satisfied by at least one of its patterns. -/
def test_hit (hit : Rec) (params : Params) : Bool :=
  params.all (fun kv => field_ok hit kv.1 kv.2)

/-- Spec-side pattern semantics, following the spec's words (§4.1):
empty pattern matches only an empty value, `+` prefix, `-` suffix,
otherwise exact equality. -/
def pattern_matches (p v : String) : Prop :=
  if p = "" then v = ""
  else if p.front = '+' then starts_with v (p.drop 1) = true
  else if p.front = '-' then ends_with v (p.drop 1) = true
  else p = v

/-- Spec-side matcher contract: every field in `S` exists in `R` and at
least one pattern of that field's list matches. -/
def spec_matches (R : Rec) (S : Params) : Prop :=
  ∀ kv ∈ S, ∃ v, List.lookup kv.1 R = some v ∧ ∃ p ∈ kv.2, pattern_matches p v

/-- Loop state of `get_all_hits`: the accumulated `results`, the
`gathered` and `processed` counters, and the `done` flag set by the two
`break` conditions. -/
structure FetchState where
  results : List Rec
  gathered : Nat
  processed : Nat
  done : Bool
deriving Repr, DecidableEq

/-- The inner `for hit in q['HITs']` loop of `get_all_hits`.  Before each
item it tests `0 < max_hits <= processed` (note: `processed`, not
`gathered`), then increments `processed`, filters with `test_hit`, and on
a non-matching item with `gathered != 0 and stop_after_first` sets `done`
and breaks. -/
def process_page (params : Params) (maxHits : Int) (saf : Bool) :
    FetchState → List Rec → FetchState
  | st, [] => st
  | st, hit :: rest =>
    if 0 < maxHits ∧ maxHits ≤ (st.processed : Int) then { st with done := true }
    else
      let st' := { st with processed := st.processed + 1 }
      if test_hit hit params then
        process_page params maxHits saf
          { st' with results := st'.results ++ [hit], gathered := st'.gathered + 1 } rest
      else if st'.gathered ≠ 0 ∧ saf then { st' with done := true }
      else process_page params maxHits saf st' rest

/-- The outer `while q['NumResults'] > 0` loop of `get_all_hits`, given
the sequence of pages the remote listing yields (an exhausted listing
returns an empty page).  Returns the final state and the number of
further `list_hits` calls made after the one that produced the current
page. -/
def hits_loop (params : Params) (maxHits : Int) (saf : Bool) :
    FetchState → List (List Rec) → FetchState × Nat
  | st, [] => (st, 0)
  | st, pg :: rest =>
    if pg.isEmpty then (st, 0)
    else
      let st' := process_page params maxHits saf st pg
      if st'.done then (st', 0)
      else
        let r := hits_loop params maxHits saf st' rest
        (r.1, r.2 + 1)

/-- `get_all_hits` over a page sequence: the gathered records together
with the total number of `list_hits` requests made (the initial request
plus every follow-up). -/
def get_all_hits (pages : List (List Rec)) (params : Params)
    (maxHits : Int) (saf : Bool) : List Rec × Nat :=
  let r := hits_loop params maxHits saf ⟨[], 0, 0, false⟩ pages
  (r.1.results, r.2 + 1)

/-- Number of items of a page that satisfy the predicate spec. -/
def countMatches (params : Params) (pg : List Rec) : Nat :=
  (pg.filter (fun h => test_hit h params)).length

/-- Whether, starting from `g` previously accepted matches, scanning the
page hits a non-matching item at a moment when at least one match has
been accepted — the condition under which `stop_after_first` sets `done`. -/
def page_triggers (params : Params) : Nat → List Rec → Bool
  | _, [] => false
  | g, y :: rest =>
    if test_hit y params then page_triggers params (g + 1) rest
    else if 0 < g then true
    else page_triggers params g rest

/-- Index of the first page on which the `stop_after_first` stop
condition fires, scanning pages in order and accumulating the number of
accepted matches. -/
def trigger_page (params : Params) (g : Nat) : List (List Rec) → Option Nat
  | [] => none
  | pg :: rest =>
    if page_triggers params g pg then some 0
    else (trigger_page params (g + countMatches params pg) rest).map (· + 1)

/-- One parsed answer of an assignment's `Answer` XML payload: the
`QuestionIdentifier` together with the remaining key/value pairs of the
answer dict in iteration order. -/
structure Answer where
  qid : String
  fields : List (String × String)
deriving Repr, DecidableEq

/-- One assignment: its own record fields (`HITId`, `AssignmentId`, ...)
plus the parsed answers of its `Answer` payload. -/
structure Assignment where
  record : Rec
  answers : List Answer
deriving Repr, DecidableEq

/-- The value extraction of `get_answer_data`: `val` starts as the empty
string and is overwritten by the value of every key of the answer dict
other than `QuestionIdentifier`, so it ends as the last such value. -/
def answer_val (a : Answer) : String :=
  a.fields.foldl (fun v kv => if kv.1 = "QuestionIdentifier" then v else kv.2) ""

/-- The fixed header of `get_answer_data`. -/
def header : List String :=
  ["HITId", "Title", "AssignmentId", "WorkerId", "AssignmentStatus",
   "RejectionTime", "RequesterAnnotation"]

/-- The first pass of `get_answer_data`: collect every answer
`QuestionIdentifier` not already in the header and not already collected,
in encounter order. -/
def discover_names (assignments : List Assignment) : List String :=
  assignments.foldl
    (fun acc a =>
      a.answers.foldl
        (fun acc ans =>
          if ans.qid ∈ header ∨ ans.qid ∈ acc then acc else acc ++ [ans.qid])
        acc)
    []

/-- All answer names of the assignment sequence, in scan order. -/
def all_qids (assignments : List Assignment) : List String :=
  assignments.flatMap (fun a => a.answers.map (fun ans => ans.qid))

/-- Spec-side first-seen deduplication of a name sequence. -/
def first_seen (l : List String) : List String :=
  l.foldl (fun acc n => if n ∈ acc then acc else acc ++ [n]) []

/-- The columnar result of `get_answer_data`: column name to the list of
cells emitted so far.  A key never touched holds the empty column. -/
def Results : Type := String → List String

/-- Pointwise update of one column. -/
def upd (r : Results) (k : String) (v : List String) : Results :=
  fun x => if x = k then v else r x

/-- `results[k].append(v)`. -/
def append_cell (r : Results) (k : String) (v : String) : Results :=
  upd r k (r k ++ [v])

/-- `hit = hit_data[assignment['HITId']]` — the owning HIT record of an
assignment, via the container index. -/
def hitOf (hit_data : List (String × Rec)) (a : Assignment) : Rec :=
  (List.lookup ((List.lookup "HITId" a.record).getD "") hit_data).getD []

/-- The fixed-header cell of `get_answer_data` (lines 138-144): the HIT
record's value if the HIT carries the field, ELSE the assignment's own
value, else the empty string.  Note the HIT is consulted first. -/
def fixed_cell (hit arec : Rec) (h : String) : String :=
  match List.lookup h hit with
  | some v => v
  | none =>
    match List.lookup h arec with
    | some v => v
    | none => ""

/-- The gap-fill step: every discovered column whose length differs from
`count = len(results['HITId'])` gets one empty cell appended. -/
def gap_fill (names : List String) (count : Nat) (r : Results) : Results :=
  names.foldl (fun r n => if (r n).length ≠ count then append_cell r n "" else r) r

/-- One iteration of the aggregation loop of `get_answer_data`: the seven
fixed-header cells, then one cell per answer of the assignment, then the
gap-fill over the discovered names. -/
def agg_step (hit_data : List (String × Rec)) (names : List String)
    (r : Results) (a : Assignment) : Results :=
  let hit := hitOf hit_data a
  let r1 := header.foldl (fun r h => append_cell r h (fixed_cell hit a.record h)) r
  let r2 := a.answers.foldl (fun r ans => append_cell r ans.qid (answer_val ans)) r1
  gap_fill names ((r2 "HITId").length) r2

/-- The aggregation of `get_answer_data` over the collected assignments:
discovery pass, empty columns, then the row loop. -/
def aggregate (assignments : List Assignment) (hit_data : List (String × Rec)) : Results :=
  assignments.foldl (agg_step hit_data (discover_names assignments)) (fun _ => [])

/-- A run of appends described by key/value pairs. -/
def append_cells (r : Results) (L : List (String × String)) : Results :=
  L.foldl (fun r kv => append_cell r kv.1 kv.2) r

/-- Python `str.encode('ASCII')` succeeds iff every character is below
code point 128. -/
def is_ascii (s : String) : Bool := s.data.all (fun c => c.toNat < 128)

/-- The substitution chain of `replace_non_ascii` in tools.py.  Every
replaced substring is a single character and no replacement output is
itself a later pattern, so the chained `str.replace` calls act as one
character-by-character map. -/
def replace_char (c : Char) : Char :=
  if c = Char.ofNat 0xe7 then 'c'
  else if c = Char.ofNat 0x2019 then Char.ofNat 39
  else if c = Char.ofNat 0xb7 then '-'
  else if c = Char.ofNat 0xed then 'i'
  else if c = Char.ofNat 0x201c then Char.ofNat 39
  else if c = Char.ofNat 0x201d then Char.ofNat 39
  else if c = Char.ofNat 0xe0 then 'a'
  else if c = Char.ofNat 0xe2 then Char.ofNat 39
  else c

/-- `replace_non_ascii` from tools.py. -/
def replace_non_ascii (s : String) : String := s.map replace_char

/-- One cell of the row loop of `write_ans_data_file`: a falsy (empty)
cell becomes `u''`; otherwise the value is written unchanged when it
encodes as ASCII, and passed through `replace_non_ascii` when the
encoding raises. -/
def sanitize_cell (s : String) : String :=
  if s = "" then ""
  else if is_ascii s then s
  else replace_non_ascii s

/-- The spec's substitution table (§4.6): cedilla, right single quote,
middle dot, acute i, the two curly double quotes, grave a, circumflex a. -/
def subTable : List (Char × Char) :=
  [(Char.ofNat 0xe7, 'c'), (Char.ofNat 0x2019, Char.ofNat 39),
   (Char.ofNat 0xb7, '-'), (Char.ofNat 0xed, 'i'),
   (Char.ofNat 0x201c, Char.ofNat 39), (Char.ofNat 0x201d, Char.ofNat 39),
   (Char.ofNat 0xe0, 'a'), (Char.ofNat 0xe2, Char.ofNat 39)]

/-- The `score` preset column list of `write_ans_data_file`. -/
def score_select : List String :=
  ["HITId", "Title", "AssignmentId", "WorkerId", "assignments", "audioUrl",
   "captions", "accuracy_scores", "fluency_scores", "Feedback"]

/-- The `select` argument of `write_ans_data_file`: a column list or the
string `score`. -/
inductive SelectArg where
  | list (l : List String)
  | score
deriving Repr, DecidableEq

/-- A column table as an ordered dict: column name to cells. -/
abbrev ColTable := List (String × List String)

/-- The select-resolution step of `write_ans_data_file`: an empty list is
replaced by all keys of `data`, the `score` string by the preset. -/
def resolve_select (data : ColTable) : SelectArg → List String
  | .list [] => data.map Prod.fst
  | .list l => l
  | .score => score_select

/-- `titles = [i for i in select if i not in ignore and i in data]`. -/
def titles_of (data : ColTable) (ignore : List String) (sel : SelectArg) : List String :=
  (resolve_select data sel).filter
    (fun i => decide (i ∉ ignore) && (List.lookup i data).isSome)

/-- The rows written by `write_ans_data_file`: header row of titles, then
one row per index of the first title's column, each cell sanitized.
(When `titles` is empty the Python raises IndexError on `titles[0]`; the
model emits no data rows in that case.) -/
def write_ans_data_file (data : ColTable) (ignore : List String) (sel : SelectArg) :
    List (List String) :=
  let titles := titles_of data ignore sel
  let n := match titles with
    | [] => 0
    | t :: _ => ((List.lookup t data).getD []).length
  titles ::
    (List.range n).map (fun i =>
      titles.map (fun j => sanitize_cell ((((List.lookup j data).getD []).get? i).getD "")))

/-- `path.with_name(path.stem + f'({i}){path.suffix}')` from `main` in
get_results.py: the configured path with `(i)` inserted between stem and
extension. -/
def add_i (stem suffix : String) (i : Nat) : String :=
  stem ++ "(" ++ toString i ++ ")" ++ suffix

/-- The `while add_i(out_file).exists(): i += 1` search of `main`,
starting at index `i`, against the finite set of paths present on disk.
`fuel` bounds the walk; the Python loop terminates exactly when some
index is free, which the theorems below take as a hypothesis. -/
def find_i (existing : List String) (stem suffix : String) : Nat → Nat → Nat
  | i, 0 => i
  | i, fuel + 1 =>
    if add_i stem suffix i ∈ existing then find_i existing stem suffix (i + 1) fuel
    else i

/-- The destination choice of `main`: the configured path itself when it
does not exist on disk, else the first indexed variant that does not. -/
def resolve_out_file (existing : List String) (stem suffix : String) (fuel : Nat) : String :=
  if stem ++ suffix ∈ existing then
    add_i stem suffix (find_i existing stem suffix 1 fuel)
  else stem ++ suffix

/-- The TypeError CPython raises inside `test_hit` when a search
parameter holds a value of the wrong type. -/
inductive PyError where
  | typeError
deriving Repr, DecidableEq

/-- A search-parameter pattern as Python sees it: the intended string, or
a non-string value (modelled by an integer).  In Python an integer
compares unequal to the empty string without error and then raises
TypeError at the subscript `p[0]`. -/
inductive PyPat where
  | str (s : String)
  | int (n : Int)
deriving Repr, DecidableEq

/-- Dynamically typed search parameters. -/
abbrev DynParams := List (String × List PyPat)

/-- `test_one` over a dynamic pattern: a string behaves as `test_one`,
a non-string raises TypeError. -/
def test_one_dyn (p : PyPat) (h : String) : Except PyError Bool :=
  match p with
  | .str s => .ok (test_one s h)
  | .int _ => .error .typeError

/-- The lazy `any(test_one(p, hit[i]) for p in pars)`: patterns evaluate
left to right, a `True` short-circuits, an error propagates. -/
def any_pat (h : String) : List PyPat → Except PyError Bool
  | [] => .ok false
  | p :: rest =>
    match test_one_dyn p h with
    | .error e => .error e
    | .ok true => .ok true
    | .ok false => any_pat h rest

/-- `test_hit` over dynamic parameters, with Python's evaluation order:
fields left to right, early `False` on a missing or unsatisfied field. -/
def test_hit_dyn (hit : Rec) : DynParams → Except PyError Bool
  | [] => .ok true
  | (k, pats) :: rest =>
    match List.lookup k hit with
    | none => .ok false
    | some v =>
      match any_pat v pats with
      | .error e => .error e
      | .ok true => test_hit_dyn hit rest
      | .ok false => .ok false

/-- The page loop of `get_all_hits` with dynamic parameters: a TypeError
raised by `test_hit` aborts the loop and propagates. -/
def process_page_dyn (params : DynParams) (maxHits : Int) (saf : Bool) :
    FetchState → List Rec → Except PyError FetchState
  | st, [] => .ok st
  | st, hit :: rest =>
    if 0 < maxHits ∧ maxHits ≤ (st.processed : Int) then .ok { st with done := true }
    else
      let st' := { st with processed := st.processed + 1 }
      match test_hit_dyn hit params with
      | .error e => .error e
      | .ok true =>
          process_page_dyn params maxHits saf
            { st' with results := st'.results ++ [hit], gathered := st'.gathered + 1 } rest
      | .ok false =>
          if st'.gathered ≠ 0 ∧ saf then .ok { st' with done := true }
          else process_page_dyn params maxHits saf st' rest

/-- The outer page loop of `get_all_hits`, propagating a TypeError. -/
def hits_loop_dyn (params : DynParams) (maxHits : Int) (saf : Bool) :
    FetchState → List (List Rec) → Except PyError FetchState
  | st, [] => .ok st
  | st, pg :: rest =>
    if pg.isEmpty then .ok st
    else
      match process_page_dyn params maxHits saf st pg with
      | .error e => .error e
      | .ok st' => if st'.done then .ok st' else hits_loop_dyn params maxHits saf st' rest

/-- `get_all_hits` with dynamic parameters. -/
def get_all_hits_dyn (pages : List (List Rec)) (params : DynParams)
    (maxHits : Int) (saf : Bool) : Except PyError (List Rec) :=
  match hits_loop_dyn params maxHits saf ⟨[], 0, 0, false⟩ pages with
  | .error e => .error e
  | .ok st => .ok st.results

/-- The assignment filter of `get_all_assignments` (line 349): each
assignment of a HIT is tested against `assignment_search_params`; a
TypeError propagates. -/
def filter_assignments (aparams : DynParams) : List Assignment →
    Except PyError (List Assignment)
  | [] => .ok []
  | a :: rest =>
    match test_hit_dyn a.record aparams with
    | .error e => .error e
    | .ok true =>
        match filter_assignments aparams rest with
        | .error e => .error e
        | .ok l => .ok (a :: l)
    | .ok false => filter_assignments aparams rest

/-- The per-HIT loop of `get_all_assignments`: builds the `hit_data`
index and collects the filtered assignments of each accepted HIT
(`get_hit_assignments` is called with an empty filter, so `assignMap`
yields each HIT's full assignment list). -/
def collect_loop (assignMap : String → List Assignment) (aparams : DynParams) :
    List Rec → List Assignment → List (String × Rec) →
    Except PyError (List Assignment × List (String × Rec))
  | [], res, hd => .ok (res, hd)
  | hit :: rest, res, hd =>
    let hitid := (List.lookup "HITId" hit).getD ""
    match filter_assignments aparams (assignMap hitid) with
    | .error e => .error e
    | .ok passed => collect_loop assignMap aparams rest (res ++ passed) (hd ++ [(hitid, hit)])

/-- `get_all_assignments` with dynamic parameters. -/
def get_all_assignments_dyn (pages : List (List Rec))
    (assignMap : String → List Assignment) (hparams aparams : DynParams)
    (maxHits : Int) (saf : Bool) :
    Except PyError (List Assignment × List (String × Rec)) :=
  match get_all_hits_dyn pages hparams maxHits saf with
  | .error e => .error e
  | .ok hits => collect_loop assignMap aparams hits [] []

/-- The top of `get_answer_data`: the collection call inside
`try/except TypeError`.  On a TypeError the diagnostic
`Invalid search parameters!` is printed and the function returns with no
table and no file written; otherwise the aggregation (and, when `write`,
the file write) runs.  Result: (table, printed lines, file written). -/
def get_answer_data (pages : List (List Rec)) (assignMap : String → List Assignment)
    (hparams aparams : DynParams) (maxHits : Int) (saf : Bool) (write : Bool) :
    Option Results × List String × Bool :=
  match get_all_assignments_dyn pages assignMap hparams aparams maxHits saf with
  | .error _ => (none, ["Invalid search parameters!"], false)
  | .ok (assignments, hit_data) => (some (aggregate assignments hit_data), [], write)

theorem test_one_iff (p v : String) : test_one p v = true ↔ pattern_matches p v := by
  unfold test_one pattern_matches
  split_ifs with h1 h2 h3
  · subst h1
    rw [beq_iff_eq]
    exact eq_comm
  · exact Iff.rfl
  · exact Iff.rfl
  · exact beq_iff_eq

theorem field_ok_iff (hit : Rec) (k : String) (pats : List String) :
    field_ok hit k pats = true ↔
      ∃ v, List.lookup k hit = some v ∧ ∃ p ∈ pats, pattern_matches p v := by
  unfold field_ok
  cases hfind : List.lookup k hit with
  | none => simp
  | some h =>
      simp only [List.any_eq_true]
      constructor
      · rintro ⟨p, hp, hone⟩
        exact ⟨h, rfl, p, hp, (test_one_iff p h).mp hone⟩
      · rintro ⟨v, hv, p, hp, hm⟩
        obtain rfl : h = v := by injection hv
        exact ⟨p, hp, (test_one_iff p h).mpr hm⟩

/-- C1: `test_hit(R, S)` is true iff every field named in `S` is present
in `R` and at least one of that field's patterns matches by the
empty/prefix/suffix/exact rule; and the empty spec matches every record. -/
theorem test_hit_correct (R : Rec) (S : Params) :
    (test_hit R S = true ↔ spec_matches R S) ∧ test_hit R [] = true := by
  constructor
  · unfold test_hit spec_matches
    simp only [List.all_eq_true]
    constructor
    · intro h kv hkv
      exact (field_ok_iff R kv.1 kv.2).mp (h kv hkv)
    · intro h kv hkv
      exact (field_ok_iff R kv.1 kv.2).mpr (h kv hkv)
  · rfl

/-- Concrete instance of C1: the record `{Status: "Approved"}` satisfies
the spec `{Status: ["+App"]}` (prefix rule), through the main theorem. -/
theorem test_hit_correct_witness :
    spec_matches [("Status", "Approved")] [("Status", ["+App"])] :=
  ((test_hit_correct [("Status", "Approved")] [("Status", ["+App"])]).1).mp (by decide)

theorem process_page_saf (params : Params) (maxHits : Int) (hm : maxHits ≤ 0)
    (st : FetchState) (pg : List Rec) (hd : st.done = false) :
    (process_page params maxHits true st pg).done = page_triggers params st.gathered pg ∧
      (page_triggers params st.gathered pg = false →
        (process_page params maxHits true st pg).gathered =
          st.gathered + countMatches params pg) := by
  induction pg generalizing st with
  | nil => simp [process_page, page_triggers, countMatches, hd]
  | cons y rest ih =>
      have hnomax : ¬(0 < maxHits ∧ maxHits ≤ (st.processed : Int)) := by
        rintro ⟨h1, _⟩; omega
      rw [process_page, if_neg hnomax]
      by_cases hy : test_hit y params
      · rw [if_pos hy]
        have := ih { st with processed := st.processed + 1,
                             results := st.results ++ [y],
                             gathered := st.gathered + 1 } hd
        simpa [page_triggers, hy, countMatches, hy, List.filter_cons,
               Nat.add_assoc, Nat.add_comm 1] using this
      · rw [if_neg hy]
        by_cases hg : st.gathered ≠ 0 ∧ True
        · have hg0 : 0 < st.gathered := Nat.pos_of_ne_zero hg.1
          simp only [hg.1, true_and, if_pos, page_triggers, hy, if_neg hy]
          simp [hg0, Nat.pos_iff_ne_zero.mp hg0, hg.1]
        · have hg0 : st.gathered = 0 := by
            by_contra hne
            exact hg ⟨hne, trivial⟩
          simp only [hg0, ne_eq, not_true_eq_false, false_and, if_false]
          have := ih { st with processed := st.processed + 1 } hd
          simpa [page_triggers, hy, hg0, countMatches, List.filter_cons] using this

theorem hits_loop_saf (params : Params) (maxHits : Int) (hm : maxHits ≤ 0) :
    ∀ (pages : List (List Rec)) (st : FetchState), st.done = false →
      (∀ pg ∈ pages, pg ≠ []) →
      (hits_loop params maxHits true st pages).2 =
        (trigger_page params st.gathered pages).getD pages.length := by
  intro pages
  induction pages with
  | nil => intro st _ _; simp [hits_loop, trigger_page]
  | cons pg rest ih =>
      intro st hd hne
      have hpg : pg ≠ [] := hne pg (List.mem_cons_self pg rest)
      have hrest : ∀ q ∈ rest, q ≠ [] := fun q hq => hne q (List.mem_cons_of_mem pg hq)
      obtain ⟨hdone, hgath⟩ := process_page_saf params maxHits hm st pg hd
      rw [hits_loop, if_neg (by simpa [List.isEmpty_iff] using hpg)]
      by_cases htr : page_triggers params st.gathered pg
      · rw [htr] at hdone
        simp [hdone, trigger_page, htr]
      · have htr' : page_triggers params st.gathered pg = false := by
          simpa using htr
        rw [htr'] at hdone
        simp only [hdone, if_false, Bool.false_eq_true]
        rw [trigger_page, if_neg htr]
        have := ih (process_page params maxHits true st pg) hdone hrest
        rw [hgath htr'] at this
        rw [this]
        cases trigger_page params (st.gathered + countMatches params pg) rest <;> simp

/-- C3 amended: with `stop_after_first` true (and no `max_hits` limit),
`get_all_hits` requests pages up to and including the first page on which
a non-matching item is processed while at least one match has already
been accepted; when no page triggers that condition it walks the whole
listing (requesting one final empty page).  In particular a page after
the page of the first accepted match IS requested whenever that page ends
without a non-matching item following the match. -/
theorem get_all_hits_stop_after_first (pages : List (List Rec)) (params : Params)
    (maxHits : Int) (hm : maxHits ≤ 0) (hne : ∀ pg ∈ pages, pg ≠ []) :
    (get_all_hits pages params maxHits true).2 =
      (trigger_page params 0 pages).getD pages.length + 1 := by
  show (hits_loop params maxHits true ⟨[], 0, 0, false⟩ pages).2 + 1 = _
  rw [hits_loop_saf params maxHits hm pages ⟨[], 0, 0, false⟩ rfl hne]

/-- Witness for the amended C3 at a concrete input: the only item of page
0 matches, page 1 holds a non-matching item, so the stop condition fires
on page 1 and exactly two requests are made. -/
theorem get_all_hits_stop_after_first_witness :
    (get_all_hits [[[("S", "ok")]], [[("S", "no")]]] [("S", ["ok"])] (-1) true).2 = 2 := by
  have h := get_all_hits_stop_after_first
    [[[("S", "ok")]], [[("S", "no")]]] [("S", ["ok"])] (-1) (by decide) (by decide)
  rw [h]
  decide

/-- Counterexample to C3 as stated: the first accepted match occurs on
page 0 (it is the sole gathered record), yet a second `list_hits` request
is made, fetching page 1 — `stop_after_first` does not prevent requesting
a page after the first match's page. -/
theorem get_all_hits_stop_after_first_cex :
    (get_all_hits [[[("S", "ok")]], [[("S", "no")]]] [("S", ["ok"])] (-1) true).1
        = [[("S", "ok")]] ∧
      (get_all_hits [[[("S", "ok")]], [[("S", "no")]]] [("S", ["ok"])] (-1) true).2 = 2 := by
  constructor <;> decide

theorem process_page_maxhits (params : Params) (m : Nat) (hm : 0 < m) :
    ∀ (pg : List Rec) (st : FetchState), st.done = false →
      process_page params (m : Int) false st pg =
        { results := st.results ++
            ((pg.take (m - st.processed)).filter (fun h => test_hit h params)),
          gathered := st.gathered +
            ((pg.take (m - st.processed)).filter (fun h => test_hit h params)).length,
          processed := st.processed + min (m - st.processed) pg.length,
          done := decide (m - st.processed < pg.length) } := by
  intro pg
  induction pg with
  | nil =>
      rintro ⟨res, g, pr, d⟩ hd
      simp at hd
      subst hd
      simp [process_page]
  | cons y rest ih =>
      rintro ⟨res, g, pr, d⟩ hd
      simp at hd
      subst hd
      by_cases hpr : m ≤ pr
      · have hcond : 0 < (m : Int) ∧ (m : Int) ≤ (pr : Int) := by
          constructor <;> [exact_mod_cast hm; exact_mod_cast hpr]
        rw [process_page, if_pos hcond]
        have hr0 : m - pr = 0 := by omega
        simp [hr0, hpr]
      · have hcond : ¬(0 < (m : Int) ∧ (m : Int) ≤ (pr : Int)) := by
          rintro ⟨_, hc⟩
          exact hpr (by exact_mod_cast hc)
        rw [process_page, if_neg hcond]
        obtain ⟨r', hr'⟩ : ∃ r', m - pr = r' + 1 := ⟨m - pr - 1, by omega⟩
        have hr'' : m - (pr + 1) = r' := by omega
        by_cases hy : test_hit y params
        · rw [if_pos hy]
          rw [ih ⟨res ++ [y], g + 1, pr + 1, false⟩ rfl]
          simp only [hr', hr'', List.take_succ_cons, List.filter_cons, hy]
          simp [List.append_assoc]
          omega
        · rw [if_neg hy]
          simp only [ne_eq, and_false, if_false, Bool.false_eq_true]
          rw [ih ⟨res, g, pr + 1, false⟩ rfl]
          simp only [hr', hr'', List.take_succ_cons, List.filter_cons, hy]
          simp
          omega

theorem hits_loop_maxhits (params : Params) (m : Nat) (hm : 0 < m) :
    ∀ (pages : List (List Rec)) (st : FetchState), st.done = false →
      (∀ pg ∈ pages, pg ≠ []) →
      (hits_loop params (m : Int) false st pages).1.results =
        st.results ++
          ((pages.flatten.take (m - st.processed)).filter (fun h => test_hit h params)) := by
  intro pages
  induction pages with
  | nil => intro st _ _; simp [hits_loop]
  | cons pg rest ih =>
      intro st hd hne
      have hpg : pg ≠ [] := hne pg (List.mem_cons_self pg rest)
      have hrest : ∀ q ∈ rest, q ≠ [] := fun q hq => hne q (List.mem_cons_of_mem pg hq)
      rw [hits_loop, if_neg (by simpa [List.isEmpty_iff] using hpg)]
      rw [process_page_maxhits params m hm pg st hd]
      by_cases hlt : m - st.processed < pg.length
      · have hdec : decide (m - st.processed < pg.length) = true := by simpa using hlt
        rw [hdec, if_pos rfl]
        have htk : (pg ++ rest.flatten).take (m - st.processed) =
            pg.take (m - st.processed) ++
              (rest.flatten.take (m - st.processed - pg.length)) :=
          List.take_append_eq_append_take
        have hz : m - st.processed - pg.length = 0 := by omega
        simp [htk, hz]
      · have hdec : decide (m - st.processed < pg.length) = false := by simpa using hlt
        rw [hdec]
        rw [if_neg (by simp)]
        have hle : pg.length ≤ m - st.processed := by omega
        rw [ih _ rfl hrest]
        simp only [List.flatten_cons]
        have htk : (pg ++ rest.flatten).take (m - st.processed) =
            pg ++ (rest.flatten.take (m - st.processed - pg.length)) := by
          rw [List.take_append_eq_append_take, List.take_of_length_le hle]
        rw [htk, List.filter_append, List.take_of_length_le hle]
        have hmin : min (m - st.processed) pg.length = pg.length := by omega
        simp [hmin, List.append_assoc]
        congr 2
        omega

/-- C6 amended: a positive `max_hits` bounds the number of PROCESSED
(examined) items, not the number of accepted records: `get_all_hits`
returns exactly the matching records among the first `max_hits` items of
the listing.  Hence the result never holds more than `max_hits` records,
but it holds exactly `max_hits` only when the first `max_hits` listed
items all match — a listing with `max_hits` matching items interleaved
with non-matching ones yields fewer. -/
theorem get_all_hits_max_hits (pages : List (List Rec)) (params : Params)
    (m : Nat) (hm : 0 < m) (hne : ∀ pg ∈ pages, pg ≠ []) :
    (get_all_hits pages params (m : Int) false).1 =
        (pages.flatten.take m).filter (fun h => test_hit h params) ∧
      (get_all_hits pages params (m : Int) false).1.length ≤ m := by
  have h1 : (get_all_hits pages params (m : Int) false).1 =
      (pages.flatten.take m).filter (fun h => test_hit h params) := by
    show (hits_loop params (m : Int) false ⟨[], 0, 0, false⟩ pages).1.results = _
    rw [hits_loop_maxhits params m hm pages ⟨[], 0, 0, false⟩ rfl hne]
    simp
  refine ⟨h1, ?_⟩
  rw [h1]
  calc ((pages.flatten.take m).filter (fun h => test_hit h params)).length
      ≤ (pages.flatten.take m).length := List.length_filter_le _ _
    _ ≤ m := List.length_take_le m _

/-- Witness for the amended C6 at a concrete input: `max_hits = 2` over a
page whose items are one non-matching and two matching records stops
after examining two items and returns just the one match among them. -/
theorem get_all_hits_max_hits_witness :
    (get_all_hits [[[("S", "no")], [("S", "ok")], [("S", "ok2")]]]
        [("S", ["ok", "ok2"])] ((2 : Nat) : Int) false).1 = [[("S", "ok")]] := by
  have h := get_all_hits_max_hits
    [[[("S", "no")], [("S", "ok")], [("S", "ok2")]]] [("S", ["ok", "ok2"])]
    2 (by decide) (by decide)
  rw [h.1]
  decide

/-- Counterexample to C6 as stated: the listing contains two matching
items and `max_hits = 2`, yet only one record is returned —
`get_all_hits` counts processed items, not accepted ones, against the
limit. -/
theorem get_all_hits_max_hits_cex :
    ((get_all_hits [[[("S", "no")], [("S", "ok")], [("S", "ok2")]]]
        [("S", ["ok", "ok2"])] ((2 : Nat) : Int) false).1.length = 1) ∧
      ((([[[("S", "no")], [("S", "ok")], [("S", "ok2")]]] :
            List (List Rec)).flatten.filter
          (fun h => test_hit h [("S", ["ok", "ok2"])])).length = 2) := by
  constructor <;> decide

theorem discover_fold_eq (l : List String) :
    ∀ acc : List String,
      l.foldl (fun acc n => if n ∈ header ∨ n ∈ acc then acc else acc ++ [n]) acc =
        (l.filter (fun n => decide (n ∉ header))).foldl
          (fun acc n => if n ∈ acc then acc else acc ++ [n]) acc := by
  induction l with
  | nil => intro acc; rfl
  | cons n rest ih =>
      intro acc
      by_cases hn : n ∈ header
      · simp [List.foldl_cons, List.filter_cons, hn, ih]
      · simp [List.foldl_cons, List.filter_cons, hn, ih]

theorem foldl_inner_flatMap {α β γ : Type} (g : γ → β → γ) (f : α → List β) :
    ∀ (l : List α) (acc : γ),
      l.foldl (fun acc a => (f a).foldl g acc) acc = (l.flatMap f).foldl g acc := by
  intro l
  induction l with
  | nil => intro acc; rfl
  | cons a rest ih =>
      intro acc
      rw [List.foldl_cons, ih, List.flatMap_cons, List.foldl_append]

theorem discover_names_eq_fold (assignments : List Assignment) :
    discover_names assignments =
      (all_qids assignments).foldl
        (fun acc n => if n ∈ header ∨ n ∈ acc then acc else acc ++ [n]) [] := by
  unfold discover_names all_qids
  rw [← foldl_inner_flatMap]
  congr 1
  funext acc a
  rw [List.foldl_map]

theorem first_seen_fold_mem (l : List String) :
    ∀ acc n, n ∈ l.foldl (fun acc n => if n ∈ acc then acc else acc ++ [n]) acc ↔
      n ∈ acc ∨ n ∈ l := by
  induction l with
  | nil => intro acc n; simp
  | cons m rest ih =>
      intro acc n
      by_cases hm : m ∈ acc
      · rw [List.foldl_cons, if_pos hm, ih]
        constructor
        · rintro (h | h)
          · exact Or.inl h
          · exact Or.inr (List.mem_cons_of_mem m h)
        · rintro (h | h)
          · exact Or.inl h
          · rcases List.mem_cons.mp h with rfl | h
            · exact Or.inl hm
            · exact Or.inr h
      · rw [List.foldl_cons, if_neg hm, ih]
        simp only [List.mem_append, List.mem_singleton, List.mem_cons]
        tauto

theorem first_seen_fold_nodup (l : List String) :
    ∀ acc, acc.Nodup →
      (l.foldl (fun acc n => if n ∈ acc then acc else acc ++ [n]) acc).Nodup := by
  induction l with
  | nil => intro acc h; exact h
  | cons m rest ih =>
      intro acc h
      by_cases hm : m ∈ acc
      · rw [List.foldl_cons, if_pos hm]; exact ih acc h
      · rw [List.foldl_cons, if_neg hm]
        refine ih _ ?_
        simpa [List.nodup_append] using ⟨h, hm⟩

theorem discover_names_spec (assignments : List Assignment) :
    discover_names assignments =
        first_seen ((all_qids assignments).filter (fun n => decide (n ∉ header))) ∧
      (discover_names assignments).Nodup ∧
      ∀ n ∈ discover_names assignments, n ∉ header := by
  have heq : discover_names assignments =
      first_seen ((all_qids assignments).filter (fun n => decide (n ∉ header))) := by
    rw [discover_names_eq_fold, first_seen, discover_fold_eq]
  refine ⟨heq, ?_, ?_⟩
  · rw [heq]
    exact first_seen_fold_nodup _ [] List.nodup_nil
  · intro n hn
    rw [heq] at hn
    have := (first_seen_fold_mem _ [] n).mp hn
    simp only [List.not_mem_nil, false_or] at this
    have := List.of_mem_filter this
    simpa using this

/-- C5: the discovered answer-field list equals the first-seen
deduplication of the answer names in scan order, with every fixed-header
name excluded; it holds no duplicates and no header name. -/
theorem discover_names_correct (assignments : List Assignment) :
    discover_names assignments =
        first_seen ((all_qids assignments).filter (fun n => decide (n ∉ header))) ∧
      (discover_names assignments).Nodup ∧
      ∀ n ∈ discover_names assignments, n ∉ header :=
  discover_names_spec assignments

/-- Witness for C5, at the spec's own concrete scenario: answer sets
`{a,b}`, `{b,c}`, `{a}` yield discovered fields `[a,b,c]`. -/
theorem discover_names_correct_witness :
    (discover_names
        [⟨[], [⟨"a", []⟩, ⟨"b", []⟩]⟩, ⟨[], [⟨"b", []⟩, ⟨"c", []⟩]⟩, ⟨[], [⟨"a", []⟩]⟩] =
      first_seen ((all_qids
        [⟨[], [⟨"a", []⟩, ⟨"b", []⟩]⟩, ⟨[], [⟨"b", []⟩, ⟨"c", []⟩]⟩, ⟨[], [⟨"a", []⟩]⟩]).filter
          (fun n => decide (n ∉ header)))) ∧
    discover_names
        [⟨[], [⟨"a", []⟩, ⟨"b", []⟩]⟩, ⟨[], [⟨"b", []⟩, ⟨"c", []⟩]⟩, ⟨[], [⟨"a", []⟩]⟩] =
      ["a", "b", "c"] :=
  ⟨(discover_names_correct _).1, by decide⟩

theorem key_fold_eq (ks : List String) (f : String → String) (r : Results) :
    ks.foldl (fun r k => append_cell r k (f k)) r =
      append_cells r (ks.map (fun k => (k, f k))) := by
  rw [append_cells, List.foldl_map]

theorem answer_fold_eq (answers : List Answer) (r : Results) :
    answers.foldl (fun r ans => append_cell r ans.qid (answer_val ans)) r =
      append_cells r (answers.map (fun ans => (ans.qid, answer_val ans))) := by
  rw [append_cells, List.foldl_map]

theorem append_cells_not_mem (L : List (String × String)) :
    ∀ (r : Results) (col : String), col ∉ L.map Prod.fst →
      append_cells r L col = r col := by
  induction L with
  | nil => intro r col _; rfl
  | cons kv rest ih =>
      intro r col hcol
      simp only [List.map_cons, List.mem_cons, not_or] at hcol
      rw [append_cells, List.foldl_cons, ← append_cells, ih _ _ hcol.2]
      simp [append_cell, upd, hcol.1]

theorem append_cells_mem (L : List (String × String)) :
    ∀ (r : Results) (col : String) (v : String),
      (L.map Prod.fst).Nodup → (col, v) ∈ L →
      append_cells r L col = r col ++ [v] := by
  induction L with
  | nil => intro r col v _ h; cases h
  | cons kv rest ih =>
      intro r col v hnd hmem
      simp only [List.map_cons, List.nodup_cons] at hnd
      rcases List.mem_cons.mp hmem with heq | hmem'
      · obtain ⟨rfl, rfl⟩ : kv.1 = col ∧ kv.2 = v := by
          constructor <;> simp [← heq]
        rw [append_cells, List.foldl_cons, ← append_cells]
        rw [append_cells_not_mem rest _ _ hnd.1]
        simp [append_cell, upd]
      · have hne : col ≠ kv.1 := by
          intro h
          exact hnd.1 (h ▸ List.mem_map.mpr ⟨(col, v), hmem', rfl⟩)
        rw [append_cells, List.foldl_cons, ← append_cells, ih _ _ _ hnd.2 hmem']
        simp [append_cell, upd, hne]

theorem gap_fill_not_mem (names : List String) (c : Nat) :
    ∀ (r : Results) (col : String), col ∉ names →
      gap_fill names c r col = r col := by
  induction names with
  | nil => intro r col _; rfl
  | cons n rest ih =>
      intro r col hcol
      simp only [List.mem_cons, not_or] at hcol
      rw [gap_fill, List.foldl_cons, ← gap_fill]
      by_cases hc : (r n).length ≠ c
      · rw [if_pos hc, ih _ _ hcol.2]
        simp [append_cell, upd, hcol.1]
      · rw [if_neg hc, ih _ _ hcol.2]

theorem gap_fill_mem (names : List String) (c : Nat) :
    ∀ (r : Results) (col : String), names.Nodup → col ∈ names →
      gap_fill names c r col =
        if (r col).length = c then r col else r col ++ [""] := by
  induction names with
  | nil => intro r col _ h; cases h
  | cons n rest ih =>
      intro r col hnd hmem
      simp only [List.nodup_cons] at hnd
      rw [gap_fill, List.foldl_cons, ← gap_fill]
      rcases List.mem_cons.mp hmem with rfl | hmem'
      · rw [gap_fill_not_mem rest c _ _ hnd.1]
        by_cases hc : (r col).length = c
        · rw [if_neg (by simpa using hc), if_pos hc]
        · rw [if_pos (by simpa using hc), if_neg hc]
          simp [append_cell, upd]
      · have hne : col ≠ n := fun h => hnd.1 (h ▸ hmem')
        by_cases hc : (r n).length ≠ c
        · rw [if_pos hc, ih _ _ hnd.2 hmem']
          simp [append_cell, upd, hne]
        · rw [if_neg hc, ih _ _ hnd.2 hmem']

theorem agg_step_header_col (hd : List (String × Rec)) (names : List String)
    (a : Assignment) (r : Results) (col : String)
    (hcol : col ∈ header)
    (hq : ∀ ans ∈ a.answers, ans.qid ∉ header)
    (hnames : ∀ n ∈ names, n ∉ header) :
    agg_step hd names r a col =
      r col ++ [fixed_cell (hitOf hd a) a.record col] := by
  unfold agg_step
  rw [key_fold_eq, answer_fold_eq]
  have h1 : append_cells r (header.map (fun h => (h, fixed_cell (hitOf hd a) a.record h)))
      col = r col ++ [fixed_cell (hitOf hd a) a.record col] := by
    refine append_cells_mem _ _ _ _ ?_ ?_
    · simp only [List.map_map]
      simpa [Function.comp] using (by decide : header.Nodup)
    · exact List.mem_map.mpr ⟨col, hcol, rfl⟩
  have h2 : col ∉ (a.answers.map (fun ans => (ans.qid, answer_val ans))).map Prod.fst := by
    simp only [List.map_map]
    intro hmem
    obtain ⟨ans, hans, hq'⟩ := List.mem_map.mp hmem
    have hq'' : ans.qid = col := by simpa [Function.comp] using hq'
    exact hq ans hans (hq'' ▸ hcol)
  have h3 : col ∉ names := fun h => hnames col h hcol
  rw [gap_fill_not_mem _ _ _ _ h3, append_cells_not_mem _ _ _ h2, h1]

theorem foldl_agg_header_col (hd : List (String × Rec)) (names : List String)
    (hnames : ∀ n ∈ names, n ∉ header) (col : String) (hcol : col ∈ header) :
    ∀ (l : List Assignment), (∀ a ∈ l, ∀ ans ∈ a.answers, ans.qid ∉ header) →
      ∀ r : Results,
        (l.foldl (agg_step hd names) r) col =
          r col ++ l.map (fun a => fixed_cell (hitOf hd a) a.record col) := by
  intro l
  induction l with
  | nil => intro _ r; simp
  | cons a rest ih =>
      intro hq r
      rw [List.foldl_cons,
          ih (fun b hb => hq b (List.mem_cons_of_mem a hb)),
          agg_step_header_col hd names a r col hcol
            (hq a (List.mem_cons_self a rest)) hnames]
      simp

/-- C2 amended: the fixed-header cell emitted for an assignment is the
owning HIT record's value when the HIT carries the field, OTHERWISE the
assignment's own value when the assignment carries it, otherwise the
empty string — the container record is consulted before the
sub-resource, not after it. -/
theorem aggregate_fixed_header (assignments : List Assignment)
    (hd : List (String × Rec))
    (hq : ∀ a ∈ assignments, ∀ ans ∈ a.answers, ans.qid ∉ header) :
    (∀ h ∈ header, aggregate assignments hd h =
        assignments.map (fun a => fixed_cell (hitOf hd a) a.record h)) ∧
      (∀ hit arec h v, List.lookup h hit = some v → fixed_cell hit arec h = v) ∧
      (∀ hit arec h v, List.lookup h hit = none → List.lookup h arec = some v →
        fixed_cell hit arec h = v) ∧
      (∀ hit arec h, List.lookup h hit = none → List.lookup h arec = none →
        fixed_cell hit arec h = "") := by
  refine ⟨?_, ?_, ?_, ?_⟩
  · intro h hh
    have hnames := (discover_names_spec assignments).2.2
    rw [aggregate, foldl_agg_header_col hd _ hnames h hh assignments hq]
    rfl
  · intro hit arec h v hv; simp [fixed_cell, hv]
  · intro hit arec h v h1 h2; simp [fixed_cell, h1, h2]
  · intro hit arec h h1 h2; simp [fixed_cell, h1, h2]

/-- Witness for the amended C2 at a concrete input: the HIT carries
`Title = "B"`, the assignment carries `Title = "A"`, and the emitted
Title column is `["B"]`. -/
theorem aggregate_fixed_header_witness :
    aggregate [⟨[("HITId", "H"), ("Title", "A")], []⟩]
        [("H", [("HITId", "H"), ("Title", "B")])] "Title" = ["B"] := by
  have h := (aggregate_fixed_header
    [⟨[("HITId", "H"), ("Title", "A")], []⟩]
    [("H", [("HITId", "H"), ("Title", "B")])]
    (by
      intro a ha ans hans
      rcases List.mem_singleton.mp ha with rfl
      cases hans)).1
    "Title" (by decide)
  rw [h]
  decide

/-- Counterexample to C2 as stated: for a fixed-header field carried by
BOTH the assignment and its HIT record, the emitted cell is the HIT's
value, not the assignment's — the claimed sub-resource-first precedence
is reversed in the code. -/
theorem aggregate_fixed_header_cex :
    aggregate [⟨[("HITId", "H"), ("Title", "A")], []⟩]
        [("H", [("HITId", "H"), ("Title", "B")])] "Title" ≠ ["A"] := by
  decide

theorem mem_discover (assignments : List Assignment) (a : Assignment) (ans : Answer)
    (ha : a ∈ assignments) (hans : ans ∈ a.answers) (hq : ans.qid ∉ header) :
    ans.qid ∈ discover_names assignments := by
  rw [(discover_names_spec assignments).1, first_seen]
  refine (first_seen_fold_mem _ [] _).mpr (Or.inr ?_)
  refine List.mem_filter.mpr ⟨?_, by simpa using hq⟩
  exact List.mem_flatMap.mpr ⟨a, ha, List.mem_map.mpr ⟨ans, hans, rfl⟩⟩

theorem agg_step_len (hd : List (String × Rec)) (names : List String) (a : Assignment)
    (r : Results) (k : Nat)
    (hnd_names : names.Nodup)
    (hnames : ∀ n ∈ names, n ∉ header)
    (hq : ∀ ans ∈ a.answers, ans.qid ∉ header ∧ ans.qid ∈ names)
    (hqnd : (a.answers.map (fun ans => ans.qid)).Nodup)
    (hinv1 : ∀ col, col ∈ header ∨ col ∈ names → (r col).length = k)
    (hinv2 : ∀ col, col ∉ header → col ∉ names → r col = []) :
    (∀ col, col ∈ header ∨ col ∈ names → ((agg_step hd names r a) col).length = k + 1) ∧
      (∀ col, col ∉ header → col ∉ names → (agg_step hd names r a) col = []) := by
  unfold agg_step
  rw [key_fold_eq, answer_fold_eq]
  have hhdr_fst : ∀ f : String → String,
      (header.map (fun h => (h, f h))).map Prod.fst = header := by
    intro f
    have hcomp : (Prod.fst ∘ fun h : String => (h, f h)) = id := rfl
    rw [List.map_map, hcomp, List.map_id]
  have hans_fst :
      (a.answers.map (fun ans => (ans.qid, answer_val ans))).map Prod.fst =
        a.answers.map (fun ans => ans.qid) := by
    simp
  set f := fixed_cell (hitOf hd a) a.record with hf
  set r1 := append_cells r (header.map (fun h => (h, f h))) with hr1
  set r2 := append_cells r1 (a.answers.map (fun ans => (ans.qid, answer_val ans))) with hr2
  have hr1_mem : ∀ col ∈ header, r1 col = r col ++ [f col] := by
    intro col hcol
    refine append_cells_mem _ _ _ _ ?_ (List.mem_map.mpr ⟨col, hcol, rfl⟩)
    rw [hhdr_fst]
    decide
  have hr1_not : ∀ col, col ∉ header → r1 col = r col := by
    intro col hcol
    refine append_cells_not_mem _ _ _ ?_
    rw [hhdr_fst f]
    exact hcol
  have hr2_mem : ∀ col, col ∈ a.answers.map (fun ans => ans.qid) →
      (r2 col).length = (r1 col).length + 1 := by
    intro col hcol
    obtain ⟨ans, hans, rfl⟩ := List.mem_map.mp hcol
    have := append_cells_mem (a.answers.map (fun ans => (ans.qid, answer_val ans)))
      r1 ans.qid (answer_val ans) (by rw [hans_fst]; exact hqnd)
      (List.mem_map.mpr ⟨ans, hans, rfl⟩)
    rw [hr2, this]
    simp
  have hr2_not : ∀ col, col ∉ a.answers.map (fun ans => ans.qid) → r2 col = r1 col := by
    intro col hcol
    refine append_cells_not_mem _ _ _ ?_
    rw [hans_fst]
    exact hcol
  have hhit_hdr : "HITId" ∈ header := by decide
  have hhit_not_qid : "HITId" ∉ a.answers.map (fun ans => ans.qid) := by
    intro hmem
    obtain ⟨ans, hans, hqid⟩ := List.mem_map.mp hmem
    exact (hq ans hans).1 (hqid ▸ hhit_hdr)
  have hcount : (r2 "HITId").length = k + 1 := by
    rw [hr2_not _ hhit_not_qid, hr1_mem _ hhit_hdr]
    simp [hinv1 _ (Or.inl hhit_hdr)]
  constructor
  · intro col hcol
    rcases hcol with hcol | hcol
    · have hnn : col ∉ names := fun h => hnames col h hcol
      rw [gap_fill_not_mem _ _ _ _ hnn]
      have hnq : col ∉ a.answers.map (fun ans => ans.qid) := by
        intro hmem
        obtain ⟨ans, hans, hqid⟩ := List.mem_map.mp hmem
        exact (hq ans hans).1 (hqid ▸ hcol)
      rw [hr2_not _ hnq, hr1_mem _ hcol]
      simp [hinv1 _ (Or.inl hcol), hcount]
    · have hnh : col ∉ header := hnames col hcol
      rw [gap_fill_mem _ _ _ _ hnd_names hcol, hcount]
      by_cases hcq : col ∈ a.answers.map (fun ans => ans.qid)
      · have hlen : (r2 col).length = k + 1 := by
          rw [hr2_mem _ hcq, hr1_not _ hnh, hinv1 _ (Or.inr hcol)]
        rw [if_pos hlen, hlen]
      · have hlen : (r2 col).length = k := by
          rw [hr2_not _ hcq, hr1_not _ hnh, hinv1 _ (Or.inr hcol)]
        rw [if_neg (by omega)]
        simp [hlen]
  · intro col hch hcn
    rw [gap_fill_not_mem _ _ _ _ hcn]
    have hnq : col ∉ a.answers.map (fun ans => ans.qid) := by
      intro hmem
      obtain ⟨ans, hans, hqid⟩ := List.mem_map.mp hmem
      exact hcn (hqid ▸ (hq ans hans).2)
    rw [hr2_not _ hnq, hr1_not _ hch]
    exact hinv2 _ hch hcn

theorem foldl_agg_len (hd : List (String × Rec)) (names : List String)
    (hnd_names : names.Nodup) (hnames : ∀ n ∈ names, n ∉ header) :
    ∀ l : List Assignment,
      (∀ a ∈ l, (∀ ans ∈ a.answers, ans.qid ∉ header ∧ ans.qid ∈ names) ∧
        (a.answers.map (fun ans => ans.qid)).Nodup) →
      ∀ (r : Results) (k : Nat),
        (∀ col, col ∈ header ∨ col ∈ names → (r col).length = k) →
        (∀ col, col ∉ header → col ∉ names → r col = []) →
        (∀ col, col ∈ header ∨ col ∈ names →
          ((l.foldl (agg_step hd names) r) col).length = k + l.length) := by
  intro l
  induction l with
  | nil => intro _ r k h1 _ col hcol; simpa using h1 col hcol
  | cons a rest ih =>
      intro hl r k h1 h2 col hcol
      obtain ⟨hstep1, hstep2⟩ := agg_step_len hd names a r k hnd_names hnames
        (hl a (List.mem_cons_self a rest)).1 (hl a (List.mem_cons_self a rest)).2 h1 h2
      rw [List.foldl_cons]
      have := ih (fun b hb => hl b (List.mem_cons_of_mem a hb))
        (agg_step hd names r a) (k + 1) hstep1 hstep2 col hcol
      rw [this]
      simp
      omega

/-- C4 amended: provided no answer is named after a fixed-header column
and no assignment repeats a `QuestionIdentifier`, every fixed-header and
every discovered column of the aggregation has length exactly the number
of assignments processed, at the end and at every intermediate point of
the loop.  (Without those provisos the invariant fails: an answer named
`Title` appends an extra cell to a fixed column.) -/
theorem aggregate_column_lengths (assignments : List Assignment)
    (hd : List (String × Rec))
    (hq : ∀ a ∈ assignments, ∀ ans ∈ a.answers, ans.qid ∉ header)
    (hnd : ∀ a ∈ assignments, (a.answers.map (fun ans => ans.qid)).Nodup) :
    ∀ col, col ∈ header ∨ col ∈ discover_names assignments →
      ((aggregate assignments hd) col).length = assignments.length ∧
      ∀ k, (((assignments.take k).foldl
          (agg_step hd (discover_names assignments)) (fun _ => [])) col).length =
        (assignments.take k).length := by
  have hnd_names := (discover_names_spec assignments).2.1
  have hnames := (discover_names_spec assignments).2.2
  intro col hcol
  constructor
  · rw [aggregate]
    have := foldl_agg_len hd (discover_names assignments) hnd_names hnames assignments
      (fun a ha => ⟨fun ans hans =>
          ⟨hq a ha ans hans, mem_discover assignments a ans ha hans (hq a ha ans hans)⟩,
        hnd a ha⟩)
      (fun _ => []) 0 (fun _ _ => rfl) (fun _ _ _ => rfl) col hcol
    simpa using this
  · intro k
    have hsub : ∀ a ∈ assignments.take k, a ∈ assignments :=
      fun a ha => List.take_subset k assignments ha
    have := foldl_agg_len hd (discover_names assignments) hnd_names hnames
      (assignments.take k)
      (fun a ha => ⟨fun ans hans =>
          ⟨hq a (hsub a ha) ans hans,
            mem_discover assignments a ans (hsub a ha) hans (hq a (hsub a ha) ans hans)⟩,
        hnd a (hsub a ha)⟩)
      (fun _ => []) 0 (fun _ _ => rfl) (fun _ _ _ => rfl) col hcol
    simpa using this

/-- Witness for the amended C4 at a concrete input: one assignment with
one answer `a`, so the discovered column `a` has length 1. -/
theorem aggregate_column_lengths_witness :
    ((aggregate [⟨[("HITId", "H")], [⟨"a", [("FreeText", "x")]⟩]⟩]
        [("H", [("HITId", "H")])]) "a").length = 1 := by
  have h := (aggregate_column_lengths
    [⟨[("HITId", "H")], [⟨"a", [("FreeText", "x")]⟩]⟩] [("H", [("HITId", "H")])]
    (by decide) (by decide) "a" (by right; decide)).1
  rw [h]
  rfl

/-- Counterexample to C4 as stated: a single assignment whose answer is
named `Title` leaves the fixed `Title` column with TWO cells after one
assignment — the row-alignment invariant does not hold for every mix of
assignments. -/
theorem aggregate_column_lengths_cex :
    ((aggregate [⟨[("HITId", "H")], [⟨"Title", [("FreeText", "x")]⟩]⟩]
          [("H", [("HITId", "H")])]) "Title").length = 2 ∧
      ([(⟨[("HITId", "H")], [⟨"Title", [("FreeText", "x")]⟩]⟩ : Assignment)]).length = 1 := by
  constructor <;> decide

theorem replace_char_eq_table (c : Char) :
    replace_char c = ((subTable.find? (fun p => c == p.1)).map Prod.snd).getD c := by
  by_cases h1 : c = Char.ofNat 0xe7
  · subst h1; decide
  by_cases h2 : c = Char.ofNat 0x2019
  · subst h2; decide
  by_cases h3 : c = Char.ofNat 0xb7
  · subst h3; decide
  by_cases h4 : c = Char.ofNat 0xed
  · subst h4; decide
  by_cases h5 : c = Char.ofNat 0x201c
  · subst h5; decide
  by_cases h6 : c = Char.ofNat 0x201d
  · subst h6; decide
  by_cases h7 : c = Char.ofNat 0xe0
  · subst h7; decide
  by_cases h8 : c = Char.ofNat 0xe2
  · subst h8; decide
  have hnone : subTable.find? (fun p => c == p.1) = none := by
    rw [List.find?_eq_none]
    intro p hp
    fin_cases hp <;> simpa using ‹_›
  rw [hnone, replace_char,
      if_neg h1, if_neg h2, if_neg h3, if_neg h4, if_neg h5, if_neg h6,
      if_neg h7, if_neg h8]
  rfl

/-- C9: a non-empty ASCII-encodable cell is written unchanged; a cell
that fails ASCII encoding is mapped character by character through the
fixed substitution table, characters outside the table being left as
they are; the sanitization is a total function, so an encoding failure
never aborts the write. -/
theorem sanitize_cell_correct :
    (∀ s : String, s ≠ "" → is_ascii s = true → sanitize_cell s = s) ∧
      (∀ s : String, is_ascii s = false →
        sanitize_cell s =
          s.map (fun c => ((subTable.find? (fun p => c == p.1)).map Prod.snd).getD c)) ∧
      (∀ c, (∀ p ∈ subTable, c ≠ p.1) → replace_char c = c) ∧
      (∀ p ∈ subTable, replace_char p.1 = p.2) := by
  refine ⟨?_, ?_, ?_, ?_⟩
  · intro s hne ha
    rw [sanitize_cell, if_neg hne, if_pos ha]
  · intro s hna
    have hne : s ≠ "" := by
      intro h
      rw [h] at hna
      simp [is_ascii] at hna
    rw [sanitize_cell, if_neg hne, if_neg (by simp [hna]), replace_non_ascii]
    congr 1
    funext c
    exact replace_char_eq_table c
  · intro c hc
    rw [replace_char_eq_table c]
    have hnone : subTable.find? (fun p => c == p.1) = none := by
      rw [List.find?_eq_none]
      intro p hp
      simpa using hc p hp
    rw [hnone]
    rfl
  · intro p hp
    fin_cases hp <;> decide

/-- Witness for C9 at concrete cells: an ASCII cell passes unchanged and
a cell with a cedilla is rewritten by the table. -/
theorem sanitize_cell_correct_witness :
    sanitize_cell "abc" = "abc" :=
  sanitize_cell_correct.1 "abc" (by decide) (by decide)

theorem lookup_isSome_of_mem_keys {α : Type} (data : List (String × α)) (i : String)
    (h : i ∈ data.map Prod.fst) : (List.lookup i data).isSome := by
  induction data with
  | nil => cases h
  | cons kv rest ih =>
      obtain ⟨k, v⟩ := kv
      by_cases hik : i = k
      · have hbeq : (i == k) = true := by simpa using hik
        simp [List.lookup, hbeq]
      · have hbeq : (i == k) = false := by simpa using hik
        simp only [List.lookup, hbeq]
        apply ih
        rcases List.mem_map.mp h with ⟨p, hp, hfst⟩
        rcases List.mem_cons.mp hp with rfl | hp2
        · exact absurd hfst.symm hik
        · exact List.mem_map.mpr ⟨p, hp2, hfst⟩

/-- C10: passing `select = []` explicitly is the same as the default: the
empty list is a sentinel for all columns of the table, so every column
not in `ignore` is selected, and the empty select list cannot produce a
selection of zero columns on a non-empty table. -/
theorem write_select_empty (data : ColTable) (ignore : List String) :
    (write_ans_data_file data ignore (SelectArg.list []) =
        write_ans_data_file data ignore (SelectArg.list (data.map Prod.fst))) ∧
      (titles_of data ignore (SelectArg.list []) =
        (data.map Prod.fst).filter (fun i => decide (i ∉ ignore))) ∧
      (data ≠ [] → titles_of data [] (SelectArg.list []) ≠ []) := by
  have hres : resolve_select data (SelectArg.list []) =
      resolve_select data (SelectArg.list (data.map Prod.fst)) := by
    cases data with
    | nil => rfl
    | cons kv rest => rfl
  have htitles : titles_of data ignore (SelectArg.list []) =
      titles_of data ignore (SelectArg.list (data.map Prod.fst)) := by
    rw [titles_of, titles_of, hres]
  refine ⟨?_, ?_, ?_⟩
  · rw [write_ans_data_file, write_ans_data_file, htitles]
  · rw [titles_of]
    show (data.map Prod.fst).filter _ = _
    refine List.filter_congr ?_
    intro i hi
    rw [lookup_isSome_of_mem_keys data i hi]
    simp
  · intro hne
    rw [titles_of]
    show (data.map Prod.fst).filter _ ≠ []
    cases data with
    | nil => exact absurd rfl hne
    | cons kv rest =>
        have h1 : (List.lookup kv.1 ((kv.1, kv.2) :: rest)).isSome := by
          simp [List.lookup]
        intro hcontra
        have := List.filter_eq_nil_iff.mp hcontra kv.1 (by simp)
        simp only [Bool.and_eq_true, decide_eq_true_eq] at this
        exact this ⟨by simp, h1⟩

/-- Witness for C10 at a concrete table: the empty select list selects
both columns. -/
theorem write_select_empty_witness :
    titles_of [("A", ["1"]), ("B", ["2"])] [] (SelectArg.list []) = ["A", "B"] ∧
      titles_of [("A", ["1"]), ("B", ["2"])] [] (SelectArg.list []) ≠ [] := by
  refine ⟨?_, (write_select_empty [("A", ["1"]), ("B", ["2"])] []).2.2 (by decide)⟩
  rw [(write_select_empty [("A", ["1"]), ("B", ["2"])] []).2.1]
  decide

theorem find_i_correct (existing : List String) (stem suffix : String) :
    ∀ (fuel start : Nat),
      (∃ j, j < fuel ∧ add_i stem suffix (start + j) ∉ existing) →
      add_i stem suffix (find_i existing stem suffix start fuel) ∉ existing ∧
        start ≤ find_i existing stem suffix start fuel ∧
        ∀ j, start ≤ j → j < find_i existing stem suffix start fuel →
          add_i stem suffix j ∈ existing := by
  intro fuel
  induction fuel with
  | zero =>
      rintro start ⟨j, hj, _⟩
      omega
  | succ fuel ih =>
      rintro start ⟨j, hj, hfree⟩
      by_cases hs : add_i stem suffix start ∈ existing
      · have hj0 : j ≠ 0 := by
          rintro rfl
          simp at hfree
          exact hfree hs
        have hex : ∃ j, j < fuel ∧ add_i stem suffix (start + 1 + j) ∉ existing := by
          refine ⟨j - 1, by omega, ?_⟩
          have : start + 1 + (j - 1) = start + j := by omega
          rw [this]
          exact hfree
        obtain ⟨h1, h2, h3⟩ := ih (start + 1) hex
        rw [find_i, if_pos hs]
        refine ⟨h1, by omega, ?_⟩
        intro k hk1 hk2
        by_cases hks : k = start
        · rw [hks]; exact hs
        · exact h3 k (by omega) hk2
      · rw [find_i, if_neg hs]
        exact ⟨hs, Nat.le_refl start, fun k hk1 hk2 => by omega⟩

/-- C7: when the configured output path exists on disk, the chosen write
target is the path with `(i)` inserted before the extension for the
smallest positive `i` whose variant does not exist; when the path does
not exist the target is the path itself; in either case the target never
names an existing file, so nothing is overwritten. -/
theorem resolve_out_file_correct (existing : List String) (stem suffix : String)
    (fuel : Nat) (hfree : ∃ j, j < fuel ∧ add_i stem suffix (1 + j) ∉ existing) :
    (stem ++ suffix ∉ existing →
        resolve_out_file existing stem suffix fuel = stem ++ suffix) ∧
      (stem ++ suffix ∈ existing →
        ∃ i, 1 ≤ i ∧ resolve_out_file existing stem suffix fuel = add_i stem suffix i ∧
          add_i stem suffix i ∉ existing ∧
          ∀ j, 1 ≤ j → j < i → add_i stem suffix j ∈ existing) ∧
      resolve_out_file existing stem suffix fuel ∉ existing := by
  obtain ⟨h1, h2, h3⟩ := find_i_correct existing stem suffix fuel 1 hfree
  refine ⟨?_, ?_, ?_⟩
  · intro hmem
    rw [resolve_out_file, if_neg hmem]
  · intro hmem
    exact ⟨find_i existing stem suffix 1 fuel, h2,
      by rw [resolve_out_file, if_pos hmem], h1, h3⟩
  · by_cases hmem : stem ++ suffix ∈ existing
    · rw [resolve_out_file, if_pos hmem]
      exact h1
    · rw [resolve_out_file, if_neg hmem]
      exact hmem

/-- Witness for C7 at a concrete disk state: with `out.csv` and
`out(1).csv` present, the chosen target is a fresh path, not an existing
one. -/
theorem resolve_out_file_correct_witness :
    resolve_out_file ["out.csv", "out(1).csv"] "out" ".csv" 2 ∉
      ["out.csv", "out(1).csv"] :=
  (resolve_out_file_correct ["out.csv", "out(1).csv"] "out" ".csv" 2
    ⟨1, by decide, by decide⟩).2.2

/-- C8: whenever the collection call raises a TypeError, `get_answer_data`
catches it at that boundary, emits the diagnostic
`Invalid search parameters!`, returns no result table and writes no
output file — the error never propagates past `get_answer_data`. -/
theorem get_answer_data_catches (pages : List (List Rec))
    (assignMap : String → List Assignment) (hparams aparams : DynParams)
    (maxHits : Int) (saf write : Bool) (e : PyError)
    (herr : get_all_assignments_dyn pages assignMap hparams aparams maxHits saf =
      .error e) :
    get_answer_data pages assignMap hparams aparams maxHits saf write =
      (none, ["Invalid search parameters!"], false) := by
  unfold get_answer_data
  rw [herr]

/-- Witness for C8 at a concrete malformed input: an integer pattern in
the HIT search parameters raises TypeError inside the matcher, and the
top-level call returns the diagnostic with no table and no write. -/
theorem get_answer_data_catches_witness :
    get_answer_data [[[("Title", "x")]]] (fun _ => [])
        [("Title", [PyPat.int 5])] [] (-1) false true =
      (none, ["Invalid search parameters!"], false) :=
  get_answer_data_catches [[[("Title", "x")]]] (fun _ => [])
    [("Title", [PyPat.int 5])] [] (-1) false true PyError.typeError rfl

end ClothoUI
